import Mathlib

/-!
Shallow embedding of the vt-rs virtual-terminal library (src/lib.rs, src/ffi.rs)
and proofs about its allocation algorithm, handle lifecycle, blanking protocol
and ioctl wrappers.

The kernel and file system are modelled by an `Oracle` supplying the outcome of
every system-level primitive (VT ioctls, device opens, termios get/set, sysfs
reads, device writes), each primitive consuming its own response stream.  Every
operation threads an explicit state `St` holding the per-stream counters and a
chronological trace of the externally observable events.  Machine integers are
modelled as `Int`/`Nat`; the one place where width matters (the `u16` scan mask
`1 << n` in `new_vt_with_minimum_number`) is modelled both with Rust's release
semantics (shift amount masked, `shlRel16`) and with Rust's checked/debug
semantics (panic on an out-of-width shift, `shlChecked16`).
-/

namespace VtRs

/-- An OS error number (`errno`). -/
abbrev Errno := Nat

/-- Externally observable events, in chronological order: VT ioctls on the
console descriptor, device-file opens/closes (each open is tagged with a fresh
file identifier), termios calls on a per-VT device, reads of the consoleblank
sysfs attribute, escape-sequence writes to a device, and the TIOCLINUX
blank/unblank ioctl. -/
inductive Ev where
  | qryCall : Ev
  | stateCall : Ev
  | activateCall : Int → Ev
  | waitCall : Int → Ev
  | disallocCall : Int → Ev
  | openDev : Nat → Int → Ev
  | closeDev : Nat → Int → Ev
  | tcgetCall : Int → Ev
  | tcsetCall : Int → Ev
  | readTimer : Ev
  | setTimer : Nat → Ev
  | blankIoctl : Int → Ev
  deriving DecidableEq, Repr

/-- The VT ioctls issued on the console control descriptor, plus the TIOCLINUX
blank ioctl: the control calls of the specification. -/
def Ev.isControlCall : Ev → Bool
  | .qryCall => true
  | .stateCall => true
  | .activateCall _ => true
  | .waitCall _ => true
  | .disallocCall _ => true
  | .blankIoctl _ => true
  | _ => false

/-- Result of the VT_GETSTATE ioctl (`struct vt_stat` in src/ffi.rs):
active VT, pending signal and the 16-bit occupancy bitmask, all `c_ushort`. -/
structure VtStat where
  v_active : Nat
  v_signal : Nat
  v_state : Nat
  deriving DecidableEq, Repr

/-- Host termios constants (Linux ABI, supplied by the `nix` binding). -/
def IGNBRK : Nat := 1
/-- Local-flag bit enabling echo. -/
def ECHO : Nat := 8
/-- Local-flag bit enabling signal generation. -/
def ISIG : Nat := 1
/-- Index of the end-of-file control character. -/
def VEOF : Nat := 4
/-- Index of the interrupt control character. -/
def VINTR : Nat := 0
/-- Index of the quit control character. -/
def VQUIT : Nat := 1
/-- Index of the suspend control character. -/
def VSUSP : Nat := 10

/-- Terminal attributes (the fields of `nix::sys::termios::Termios` that
src/lib.rs reads or writes): input flags, local flags and the
control-character table. -/
structure Termios where
  input_flags : Nat
  local_flags : Nat
  control_chars : List Nat
  deriving DecidableEq, Repr

/-- Kernel/file-system oracle: the outcome of the k-th call of each primitive.
`qry` are the successive VT_OPENQRY results, `gstate` the VT_GETSTATE results,
`openTty k n` the outcome of the k-th device open (of `/dev/tty{n}`), `tcget`
and `tcset` the termios get/set outcomes, `timer` the consoleblank sysfs reads,
`devWrite` the escape-sequence device writes, `tioc` the TIOCLINUX outcomes. -/
structure Oracle where
  qry : Nat → Except Errno Int
  gstate : Nat → Except Errno VtStat
  openTty : Nat → Int → Except Errno Unit
  tcget : Nat → Except Errno Termios
  tcset : Nat → Except Errno Unit
  timer : Nat → Except Errno Nat
  devWrite : Nat → Except Errno Unit
  tioc : Nat → Except Errno Unit

/-- Execution state: one consumption counter per oracle stream, a counter of
file identifiers handed out by device opens, and the event trace so far. -/
structure St where
  qryK : Nat
  gstateK : Nat
  openK : Nat
  tcgetK : Nat
  tcsetK : Nat
  timerK : Nat
  writeK : Nat
  tiocK : Nat
  trace : List Ev
  deriving Repr

/-- The initial state: nothing consumed, empty trace. -/
def st0 : St := ⟨0, 0, 0, 0, 0, 0, 0, 0, []⟩

/-- Append one event to the trace. -/
def St.emit (st : St) (e : Ev) : St := { st with trace := st.trace ++ [e] }

/-- An allocated or opened virtual terminal (`struct Vt` in src/lib.rs):
its number, the identifier of the backing device file, and the cached
termios snapshot.  All three fields are populated at construction. -/
structure Vt where
  number : Int
  fileId : Nat
  termios : Termios
  deriving DecidableEq, Repr

/-- Failure outcomes of the embedded operations: a propagated `io::Error`
(`ioe`), the `VtNumber::new` panic on a negative number (`panicNegVt`), the
`.pop().unwrap()` panic on an empty probe vector (`panicEmptyVec`), and
exhaustion of the fuel bounding the source's unbounded probe loop
(`fuelOut`, a modelling artifact). -/
inductive Err where
  | ioe : Errno → Err
  | panicNegVt : Err
  | panicEmptyVec : Err
  | fuelOut : Err
  deriving DecidableEq, Repr

/-- The VT_OPENQRY ioctl (`ffi::vt_openqry` as called from src/lib.rs):
emits a control-call event, consumes one `qry` response. -/
def vt_openqry (o : Oracle) (st : St) : Except Err Int × St :=
  ((o.qry st.qryK).mapError Err.ioe,
   { st.emit Ev.qryCall with qryK := st.qryK + 1 })

/-- The VT_GETSTATE ioctl (`ffi::vt_getstate`). -/
def vt_getstate (o : Oracle) (st : St) : Except Err VtStat × St :=
  ((o.gstate st.gstateK).mapError Err.ioe,
   { st.emit Ev.stateCall with gstateK := st.gstateK + 1 })

/-- Opening the device file `/dev/tty{n}`: on success a fresh file identifier
is produced and an open event emitted; a failed open creates no file. -/
def openDevFile (o : Oracle) (n : Int) (st : St) : Except Err Nat × St :=
  match o.openTty st.openK n with
  | .error e => (.error (.ioe e), { st with openK := st.openK + 1 })
  | .ok _ =>
      (.ok st.openK,
       { st.emit (Ev.openDev st.openK n) with openK := st.openK + 1 })

/-- Closing (dropping) the device file with identifier `id` open on tty `n`. -/
def closeFile (st : St) (id : Nat) (n : Int) : St := st.emit (Ev.closeDev id n)

/-- The `tcgetattr` call on the device of tty `n`. -/
def tcgetattrM (o : Oracle) (n : Int) (st : St) : Except Err Termios × St :=
  ((o.tcget st.tcgetK).mapError Err.ioe,
   { st.emit (Ev.tcgetCall n) with tcgetK := st.tcgetK + 1 })

/-- The `tcsetattr` call on the device of tty `n`. -/
def tcsetattrM (o : Oracle) (n : Int) (st : St) : Except Err Unit × St :=
  ((o.tcset st.tcsetK).mapError Err.ioe,
   { st.emit (Ev.tcsetCall n) with tcsetK := st.tcsetK + 1 })

/-- Embeds `Vt::with_number_and_file` (src/lib.rs): fetch the termios attributes of
the already-open file; on failure the file passed in is dropped (closed). -/
def with_number_and_file (o : Oracle) (n : Int) (id : Nat) (st : St) :
    Except Err Vt × St :=
  match tcgetattrM o n st with
  | (.error e, st1) => (.error e, closeFile st1 id n)
  | (.ok t, st1) => (.ok ⟨n, id, t⟩, st1)

/-- Embeds `Vt::with_number` (src/lib.rs), including the `VtNumber::new` panic of the
caller-side `n.into()` conversion on a negative number: open `/dev/tty{n}`
and delegate to `with_number_and_file`. -/
def with_number (o : Oracle) (n : Int) (st : St) : Except Err Vt × St :=
  if n < 0 then (.error .panicNegVt, st)
  else
    match openDevFile o n st with
    | (.error e, st1) => (.error e, st1)
    | (.ok id, st1) => with_number_and_file o n id st1

/-- Embeds `Console::open_vt` (src/lib.rs): just `Vt::with_number`. -/
def open_vt (o : Oracle) (n : Int) (st : St) : Except Err Vt × St :=
  with_number o n st

/-- Embeds `impl Drop for Vt` (src/lib.rs): unconditionally issue VT_DISALLOCATE for
the handle's number — the result is discarded — then the backing file is
closed as the struct's fields are dropped. -/
def dropVt (vt : Vt) (st : St) : St :=
  closeFile (st.emit (Ev.disallocCall vt.number)) vt.fileId vt.number

/-- The default attribute baseline applied by `new_vt_with_minimum_number`:
ignore break, disable echo and signal generation, disable the EOF character. -/
def applyBaseline (t : Termios) : Termios :=
  { input_flags := t.input_flags ||| IGNBRK
    local_flags := Nat.ldiff t.local_flags (ECHO ||| ISIG)
    control_chars := t.control_chars.set VEOF 0 }

/-- Embeds `Vt::update_termios` on the mutated snapshot, with the drop-on-unwind of
the freshly built handle: if the commit fails, the handle is dropped, which
issues the deallocation request and closes the file. -/
def finalizeBaseline (o : Oracle) (vt : Vt) (st : St) : Except Err Vt × St :=
  let vt1 : Vt := { vt with termios := applyBaseline vt.termios }
  match tcsetattrM o vt1.number st with
  | (.error e, st1) => (.error e, dropVt vt1 st1)
  | (.ok _, st1) => (.ok vt1, st1)

/-- Rust release semantics of the scan-mask shift `1u16 << n` (`n : i32`):
the shift amount is reduced modulo the 16-bit width, no panic. -/
def shlRel16 (n : Int) : Nat := (1 <<< (n % 16).toNat) % 65536

/-- Rust checked (debug) semantics of the scan-mask shift `1u16 << n`:
defined only when the shift amount lies within the 16-bit width. -/
def shlChecked16 (n : Int) : Option Nat :=
  if 0 ≤ n ∧ n < 16 then some (1 <<< n.toNat) else none

/-- The bitmask scan loop of `new_vt_with_minimum_number`: starting from
position `n` with mask `mask`, while `n < 16`, return the first position whose
`v_state` bit is clear; the mask is shifted left (as a `u16`) each step.
`fuel` only bounds the recursion; the caller supplies enough for the loop to
reach 16. -/
def scanLoop (v : Nat) (fuel : Nat) (n : Int) (mask : Nat) : Option Int :=
  match fuel with
  | 0 => none
  | f + 1 =>
      if n < 16 then
        if v &&& mask = 0 then some n
        else scanLoop v f (n + 1) ((mask <<< 1) % 65536)
      else none

/-- Close every file of a probe vector, front to back (the drop of
`Vec<File>`). -/
def closeAll (files : List (Nat × Int)) (st : St) : St :=
  files.foldl (fun s p => s.emit (Ev.closeDev p.1 p.2)) st

/-- Loop exit of the slow path: `n = first_free` and
`Vt::with_number_and_file(self, n.into(), files.pop().unwrap())` — the
`VtNumber::new` panic on a negative number happens first (argument order),
then the last pushed file is popped; all the other files of the vector are
closed when the vector is dropped, on both the success and the error path
(on the error path, the popped file itself is closed inside
`with_number_and_file`). -/
def slowExit (o : Oracle) (firstFree : Int) (files : List (Nat × Int))
    (st : St) : Except Err Vt × St :=
  if firstFree < 0 then (.error .panicNegVt, closeAll files st)
  else
    match files.getLast? with
    | none => (.error .panicEmptyVec, closeAll files st)
    | some (id, _) =>
        match with_number_and_file o firstFree id st with
        | (.error e, st1) => (.error e, closeAll files.dropLast st1)
        | (.ok vt, st1) => (.ok vt, closeAll files.dropLast st1)

/-- The slow probing loop of `new_vt_with_minimum_number`: while the last
VT_OPENQRY answer is below the threshold `thr` (the source's `n`), query again
and open the reported `/dev/tty{first_free}`, pushing the file on the vector;
on a failing step the whole vector is dropped (all probe files closed).
`fuel` bounds the source's unbounded loop. -/
def slowLoop (o : Oracle) (thr : Int) (fuel : Nat) (firstFree : Int)
    (files : List (Nat × Int)) (st : St) : Except Err Vt × St :=
  if firstFree < thr then
    match fuel with
    | 0 => (.error .fuelOut, closeAll files st)
    | f + 1 =>
        match vt_openqry o st with
        | (.error e, st1) => (.error e, closeAll files st1)
        | (.ok ff, st1) =>
            match openDevFile o ff st1 with
            | (.error e, st2) => (.error e, closeAll files st2)
            | (.ok id, st2) => slowLoop o thr f ff (files ++ [(id, ff)]) st2
  else slowExit o firstFree files st

/-- The branch of `new_vt_with_minimum_number` after the first VT_OPENQRY
answered `n0`.  Fast path: if `n0` is at least `min`, open that terminal.
Otherwise query VT_GETSTATE and scan the 16-slot occupancy bitmask upward
from `min` (scan mask per `shlRel16`); a found clear bit is opened directly.
Otherwise probe with `slowLoop`, whose threshold is the source's `n` after
the scan: `16` when the scan ran off the window, `min` when `min ≥ 16`
skipped it — i.e. `max min 16`. -/
def allocPhase (o : Oracle) (fuel : Nat) (min : Int) (n0 : Int) (st : St) :
    Except Err Vt × St :=
  if min ≤ n0 then with_number o n0 st
  else
    match vt_getstate o st with
    | (.error e, st2) => (.error e, st2)
    | (.ok vs, st2) =>
        match scanLoop vs.v_state ((16 - min).toNat + 1) min
            (shlRel16 min) with
        | some k => with_number o k st2
        | none => slowLoop o (max min 16) fuel 0 [] st2

/-- Embeds `Console::new_vt_with_minimum_number` (src/lib.rs): first VT_OPENQRY,
then the fast/bitmask/slow search (`allocPhase`), and finally the default
attribute baseline is committed (`finalizeBaseline`). -/
def new_vt_with_minimum_number (o : Oracle) (fuel : Nat) (min : Int)
    (st : St) : Except Err Vt × St :=
  match vt_openqry o st with
  | (.error e, st1) => (.error e, st1)
  | (.ok n0, st1) =>
      match allocPhase o fuel min n0 st1 with
      | (.error e, st3) => (.error e, st3)
      | (.ok vt, st3) => finalizeBaseline o vt st3

/-- TIOCLINUX sub-opcode turning blanking on (src/ffi.rs). -/
def TIOCL_BLANKSCREEN : Int := 14
/-- TIOCLINUX sub-opcode turning blanking off (src/ffi.rs). -/
def TIOCL_UNBLANKSCREEN : Int := 4

/-- Embeds `Console::blank_timer` (src/lib.rs): open and read the consoleblank sysfs
attribute, parse it as an unsigned integer. -/
def blank_timer (o : Oracle) (st : St) : Except Err Nat × St :=
  ((o.timer st.timerK).mapError Err.ioe,
   { st.emit Ev.readTimer with timerK := st.timerK + 1 })

/-- Embeds `Vt::set_blank_timer` (src/lib.rs): write the timer escape sequence
to the device. -/
def set_blank_timer (o : Oracle) (v : Nat) (st : St) : Except Err Unit × St :=
  ((o.devWrite st.writeK).mapError Err.ioe,
   { st.emit (Ev.setTimer v) with writeK := st.writeK + 1 })

/-- The TIOCLINUX ioctl (`ffi::tioclinux`) with a blank/unblank argument. -/
def tioclinuxM (o : Oracle) (arg : Int) (st : St) : Except Err Unit × St :=
  ((o.tioc st.tiocK).mapError Err.ioe,
   { st.emit (Ev.blankIoctl arg) with tiocK := st.tiocK + 1 })

/-- Embeds `Vt::blank` (src/lib.rs): when blanking, read the console blank timer; if
it is zero, set it to 1 and remember to restore it; issue the blank or unblank
ioctl; restore the timer to 0 if it was temporarily enabled.  When unblanking,
the `&&` short-circuit skips the timer read entirely. -/
def blank (o : Oracle) (doBlank : Bool) (st : St) : Except Err Unit × St :=
  let step1 : Except Err Bool × St :=
    if doBlank then
      match blank_timer o st with
      | (.error e, st1) => (.error e, st1)
      | (.ok t, st1) =>
          if t = 0 then
            match set_blank_timer o 1 st1 with
            | (.error e, st2) => (.error e, st2)
            | (.ok _, st2) => (.ok true, st2)
          else (.ok false, st1)
    else (.ok false, st)
  match step1 with
  | (.error e, st1) => (.error e, st1)
  | (.ok needsReset, st1) =>
      match tioclinuxM o
          (if doBlank then TIOCL_BLANKSCREEN else TIOCL_UNBLANKSCREEN) st1 with
      | (.error e, st2) => (.error e, st2)
      | (.ok _, st2) =>
          if needsReset then
            match set_blank_timer o 0 st2 with
            | (.error e, st3) => (.error e, st3)
            | (.ok _, st3) => (.ok (), st3)
          else (.ok (), st2)

/-- The Linux `EINTR` errno value. -/
def EINTR : Int := 4

/-- The retry loop shared by `ioctl_get_wrapper` and `ioctl_set_wrapper`
(src/ffi.rs): `raw k` is the k-th raw `ioctl` attempt, giving the return
value together with the `errno` the call left in the thread's errno cell.
The source loops while the RETURN VALUE equals `EINTR` — it never consults
errno — and breaks with the final return value. -/
def ioctlRetryLoop (raw : Nat → Int × Nat) (k : Nat) (fuel : Nat) :
    Option (Int × Nat) :=
  match fuel with
  | 0 => none
  | f + 1 =>
      let r := raw k
      if r.1 = EINTR then ioctlRetryLoop raw (k + 1) f else some r

/-- The body shared by both ioctl wrapper macros in src/ffi.rs: run the retry
loop, then match the final return value: `-1` becomes
`Err(io::Error::from_raw_os_error(res))` — note that the payload passed to
`from_raw_os_error` is the return value `res` itself, not the errno the
failing call reported — and anything else is `Ok`.  The error side of the
result carries the raw OS error code stored in the `io::Error`. -/
def ioctl_wrapper (raw : Nat → Int × Nat) (fuel : Nat) :
    Option (Except Int Unit) :=
  match ioctlRetryLoop raw 0 fuel with
  | none => none
  | some r => some (if r.1 = -1 then .error r.1 else .ok ())

/-- The probe files recorded in a trace: the (identifier, number) pairs of the
successful device opens, in order. -/
def opensOf (tr : List Ev) : List (Nat × Int) :=
  tr.filterMap fun e =>
    match e with
    | .openDev id n => some (id, n)
    | _ => none

/-- The device-file closes recorded in a trace, in order. -/
def closesOf (tr : List Ev) : List (Nat × Int) :=
  tr.filterMap fun e =>
    match e with
    | .closeDev id n => some (id, n)
    | _ => none

theorem opensOf_append (a b : List Ev) :
    opensOf (a ++ b) = opensOf a ++ opensOf b := by
  simp [opensOf, List.filterMap_append]

theorem closesOf_append (a b : List Ev) :
    closesOf (a ++ b) = closesOf a ++ closesOf b := by
  simp [closesOf, List.filterMap_append]

/-- A concrete termios snapshot used by concrete runs. -/
def t0 : Termios := ⟨0, 0, [0, 0, 0, 0, 0]⟩

/-- A concrete all-succeeding oracle: first free VT 3, empty occupancy
bitmask, blank timer reading 0. -/
def oA : Oracle :=
  { qry := fun _ => .ok 3
    gstate := fun _ => .ok ⟨1, 0, 0⟩
    openTty := fun _ _ => .ok ()
    tcget := fun _ => .ok t0
    tcset := fun _ => .ok ()
    timer := fun _ => .ok 0
    devWrite := fun _ => .ok ()
    tioc := fun _ => .ok () }

/-- C2 counterexample.  The claim says a handle obtained from `open_vt`
(a borrowed handle) never issues a deallocation request at destruction.  In
the code `impl Drop for Vt` is unconditional: opening VT 3 via `open_vt` and
dropping the returned handle issues exactly one VT_DISALLOCATE request for
number 3. -/
theorem c2_counterexample_open_vt_drop_deallocates :
    (open_vt oA 3 st0).1 = .ok ⟨3, 0, t0⟩ ∧
    ((dropVt ⟨3, 0, t0⟩ (open_vt oA 3 st0).2).trace.count
        (Ev.disallocCall 3)) = 1 := by
  constructor
  · rfl
  · rfl

/-- C2 amended.  Destruction of every `Vt` handle — whether obtained from
allocation or from `open_vt`, and regardless of anything that happened
before — appends exactly one VT_DISALLOCATE request for its own number
(result discarded) followed by the close of its backing file. -/
theorem c2_amended_drop_always_deallocates (vt : Vt) (st : St) :
    (dropVt vt st).trace =
      st.trace ++ [Ev.disallocCall vt.number,
                   Ev.closeDev vt.fileId vt.number] := by
  simp [dropVt, closeFile, St.emit]

/-- C7 counterexample.  The claim says a freshly constructed handle is
`Unopened` (descriptor and attribute snapshot absent) and the device is only
opened lazily before the first I/O.  In the code `Vt::with_number` opens the
device and fetches the attributes during construction: the trace of a bare
`open_vt` already contains the open and the attribute fetch. -/
theorem c7_counterexample_construction_opens_eagerly :
    (open_vt oA 3 st0).2.trace = [Ev.openDev 0 3, Ev.tcgetCall 3] ∧
    ¬ opensOf (open_vt oA 3 st0).2.trace = [] := by
  constructor
  · rfl
  · decide

/-- C7 amended.  A `Vt` handle is constructed already opened: `with_number`
(and hence `open_vt`) opens the per-number device file and fetches the
terminal attributes exactly once, eagerly, at construction; the returned
handle carries the number, the fresh file and the snapshot, and `Vt.number`
is a pure projection. -/
theorem c7_amended_construction_is_eager (o : Oracle) (n : Int) (st : St)
    (t : Termios) (h0 : 0 ≤ n) (h1 : o.openTty st.openK n = .ok ())
    (h2 : o.tcget st.tcgetK = .ok t) :
    (open_vt o n st).1 = .ok ⟨n, st.openK, t⟩ ∧
    (open_vt o n st).2.trace =
      st.trace ++ [Ev.openDev st.openK n, Ev.tcgetCall n] ∧
    (Vt.number ⟨n, st.openK, t⟩ = n) := by
  have hn : ¬ n < 0 := not_lt.mpr h0
  refine ⟨?_, ?_, rfl⟩ <;>
    simp [open_vt, with_number, openDevFile, with_number_and_file, tcgetattrM,
      St.emit, hn, h1, h2, Except.mapError]

theorem c7_amended_construction_is_eager_witness :
    (open_vt oA 3 st0).1 = .ok ⟨3, 0, t0⟩ ∧
    (open_vt oA 3 st0).2.trace =
      st0.trace ++ [Ev.openDev 0 3, Ev.tcgetCall 3] ∧
    (Vt.number ⟨3, 0, t0⟩ = 3) :=
  c7_amended_construction_is_eager oA 3 st0 t0 (by decide) rfl rfl

/-- C3.  The exact control-call sequences of `Vt::blank`: blanking with the
console timer reading 0 performs read-timer, set-timer(1), blank-on,
set-timer(0); blanking with a non-zero timer performs read-timer then
blank-on with no timer mutation; unblanking performs only the blank-off
ioctl, with no timer read or write. -/
theorem c3_blank_call_sequences (o : Oracle) (st : St) :
    ((o.timer st.timerK = .ok 0) → (o.devWrite st.writeK = .ok ()) →
      (o.tioc st.tiocK = .ok ()) → (o.devWrite (st.writeK + 1) = .ok ()) →
      (blank o true st).1 = .ok () ∧
      (blank o true st).2.trace = st.trace ++
        [Ev.readTimer, Ev.setTimer 1, Ev.blankIoctl TIOCL_BLANKSCREEN,
         Ev.setTimer 0])
  ∧ (∀ tv, o.timer st.timerK = .ok tv → tv ≠ 0 → o.tioc st.tiocK = .ok () →
      (blank o true st).1 = .ok () ∧
      (blank o true st).2.trace = st.trace ++
        [Ev.readTimer, Ev.blankIoctl TIOCL_BLANKSCREEN])
  ∧ (o.tioc st.tiocK = .ok () →
      (blank o false st).1 = .ok () ∧
      (blank o false st).2.trace =
        st.trace ++ [Ev.blankIoctl TIOCL_UNBLANKSCREEN]) := by
  refine ⟨fun h1 h2 h3 h4 => ?_, fun tv h1 h2 h3 => ?_, fun h1 => ?_⟩
  · simp [blank, blank_timer, set_blank_timer, tioclinuxM, St.emit,
      h1, h2, h3, h4, Except.mapError]
  · simp [blank, blank_timer, set_blank_timer, tioclinuxM, St.emit,
      h1, h2, h3, Except.mapError]
  · simp [blank, blank_timer, set_blank_timer, tioclinuxM, St.emit,
      h1, Except.mapError]

theorem c3_blank_call_sequences_witness :
    (blank oA true st0).1 = .ok () ∧
    (blank oA true st0).2.trace = st0.trace ++
      [Ev.readTimer, Ev.setTimer 1, Ev.blankIoctl TIOCL_BLANKSCREEN,
       Ev.setTimer 0] :=
  (c3_blank_call_sequences oA st0).1 rfl rfl rfl rfl

/-- C8.  The claim says every ioctl wrapper retries the call as long as it is
interrupted by a signal, so an interruption is never surfaced as an error.
The retry loop in src/ffi.rs compares the ioctl RETURN VALUE against `EINTR`;
an interrupted call returns `-1` with `errno = EINTR = 4`, so the loop breaks
immediately and the wrapper surfaces `Err` instead of retrying: here a stream
of permanently interrupted calls produces an error on the very first call. -/
theorem c8_interrupted_call_is_surfaced :
    ioctl_wrapper (fun _ => (-1, 4)) 5 = some (.error (-1)) ∧
    ioctl_wrapper (fun k => if k = 0 then (-1, 4) else (0, 0)) 5 =
      some (.error (-1)) := by
  constructor
  · rfl
  · rfl

/-- C9.  The claim says a failed control request surfaces an error whose
contained OS error code equals the errno reported by the system call.  In
src/ffi.rs the error is built as `io::Error::from_raw_os_error(res)` where
`res` is the ioctl return value `-1`, not the errno: a call failing with
`errno = EBADF = 9` produces an error carrying `-1`, not `9`. -/
theorem c9_error_carries_return_value_not_errno :
    ioctl_wrapper (fun _ => (-1, 9)) 5 = some (.error (-1)) ∧
    (-1 : Int) ≠ 9 := by
  constructor
  · rfl
  · decide

/-- C10 counterexample.  The claim says the scan-mask shift in
`new_vt_with_minimum_number` is a 32-bit signed shift, well-defined under
checked arithmetic iff `minimum < 32`.  The mask is in fact a `u16`
(`v_state` is `c_ushort`, so `1 << n` infers `u16`): at `minimum = 20` the
checked shift already overflows although `20 < 32`. -/
theorem c10_counterexample_shift_is_not_32_bit :
    ¬ ((shlChecked16 20).isSome ↔ (20 : Int) < 32) := by
  decide

/-- C10 amended.  The scan mask `1u16 << minimum` is a 16-bit unsigned
shift: under checked arithmetic it is well-defined iff `minimum < 16` (for
`minimum ≥ 0`), and where defined it agrees with the release-semantics mask
`shlRel16` that the embedded allocator uses. -/
theorem c10_amended_scan_mask_is_16_bit (min : Int) (h : 0 ≤ min) :
    ((shlChecked16 min).isSome ↔ min < 16) ∧
    (∀ m, shlChecked16 min = some m → m = shlRel16 min) := by
  constructor
  · simp [shlChecked16, h]
  · intro m hm
    simp only [shlChecked16] at hm
    split at hm
    · rename_i hc
      cases hm
      have ht : (min % 16) = min := Int.emod_eq_of_lt hc.1 hc.2
      have hlt : (1 <<< min.toNat) < 65536 := by
        have h16 : min.toNat < 16 := by omega
        calc 1 <<< min.toNat = 2 ^ min.toNat := by
              simp [Nat.shiftLeft_eq]
          _ < 2 ^ 16 := Nat.pow_lt_pow_right (by norm_num) h16
      simp [shlRel16, ht, Nat.mod_eq_of_lt hlt]
    · exact absurd hm (by simp)

theorem c10_amended_scan_mask_is_16_bit_witness :
    ((shlChecked16 5).isSome ↔ (5 : Int) < 16) ∧
    (∀ m, shlChecked16 5 = some m → m = shlRel16 5) :=
  c10_amended_scan_mask_is_16_bit 5 (by decide)

/-- C4.  Fast path of the allocator: when the kernel's first-free query
answers `n ≥ min` (and the subsequent device open, attribute fetch and
baseline commit succeed), the allocation returns a handle numbered `n`, its
full event trace is the query, the device open, the attribute fetch, and the
baseline commit — exactly one control call in total. -/
theorem c4_fast_path_one_control_call (o : Oracle) (fuel : Nat)
    (min n : Int) (t : Termios)
    (hmin : 0 ≤ min) (h1 : o.qry 0 = .ok n) (h2 : min ≤ n)
    (h3 : o.openTty 0 n = .ok ()) (h4 : o.tcget 0 = .ok t)
    (h5 : o.tcset 0 = .ok ()) :
    (new_vt_with_minimum_number o fuel min st0).1 =
      .ok ⟨n, 0, applyBaseline t⟩ ∧
    (new_vt_with_minimum_number o fuel min st0).2.trace =
      [Ev.qryCall, Ev.openDev 0 n, Ev.tcgetCall n, Ev.tcsetCall n] ∧
    ((new_vt_with_minimum_number o fuel min st0).2.trace.filter
        (fun e => e.isControlCall)) = [Ev.qryCall] := by
  have hn : ¬ n < 0 := not_lt.mpr (hmin.trans h2)
  refine ⟨?_, ?_, ?_⟩ <;>
    simp [new_vt_with_minimum_number, vt_openqry, allocPhase, with_number,
      openDevFile, with_number_and_file, tcgetattrM, finalizeBaseline,
      tcsetattrM, st0, St.emit, Except.mapError, Ev.isControlCall,
      h1, h2, h3, h4, h5, hn]

theorem c4_fast_path_one_control_call_witness :
    (new_vt_with_minimum_number oA 5 0 st0).1 = .ok ⟨3, 0, applyBaseline t0⟩ ∧
    (new_vt_with_minimum_number oA 5 0 st0).2.trace =
      [Ev.qryCall, Ev.openDev 0 3, Ev.tcgetCall 3, Ev.tcsetCall 3] ∧
    ((new_vt_with_minimum_number oA 5 0 st0).2.trace.filter
        (fun e => e.isControlCall)) = [Ev.qryCall] :=
  c4_fast_path_one_control_call oA 5 0 3 t0 (by decide) rfl (by decide)
    rfl rfl rfl

/-- The first position `p` with `j ≤ p < 16` whose bit of `v` is clear
(`v &&& 2^p` vanishes), if any: the specification of the bitmask scan. -/
def firstClearFrom (v : Nat) (j : Nat) : Option Nat :=
  (List.range' j (16 - j)).find? fun p => v &&& 2 ^ p = 0

theorem firstClearFrom_bounds (v : Nat) (j k : Nat)
    (h : firstClearFrom v j = some k) : j ≤ k ∧ k < 16 := by
  have hm := List.mem_of_find?_eq_some h
  rw [List.mem_range'_1] at hm
  omega

/-- The scan loop of `new_vt_with_minimum_number`, entered at position `j`
with the release-semantics mask and just enough fuel, computes exactly
`firstClearFrom`. -/
theorem scanLoop_eq_firstClearFrom (v : Nat) :
    ∀ (c j : Nat), j + c = 16 →
      scanLoop v (c + 1) (j : Int) (2 ^ j % 65536) =
        (firstClearFrom v j).map (fun m => (m : Int)) := by
  intro c
  induction c with
  | zero =>
    intro j hj
    have hj' : j = 16 := by omega
    subst hj'
    simp [scanLoop, firstClearFrom]
  | succ c ih =>
    intro j hj
    have hj16 : j < 16 := by omega
    have hjc : (j : Int) < 16 := by exact_mod_cast hj16
    have hmask : (2 ^ j) % 65536 = 2 ^ j := by
      apply Nat.mod_eq_of_lt
      calc 2 ^ j < 2 ^ 16 := Nat.pow_lt_pow_right (by norm_num) hj16
        _ = 65536 := by norm_num
    have hrange : 16 - j = c + 1 + 1 - 1 := by omega
    rw [scanLoop, if_pos hjc, hmask]
    rw [firstClearFrom, show 16 - j = c + 1 from by omega,
      List.range'_succ, List.find?_cons]
    by_cases hbit : v &&& 2 ^ j = 0
    · simp [hbit]
    · rw [if_neg hbit]
      have hfind : (decide (v &&& 2 ^ j = 0)) = false := by
        simpa using hbit
      rw [hfind]
      simp only [cond_false]
      have hsh : ((2 ^ j) <<< 1) % 65536 = 2 ^ (j + 1) % 65536 := by
        congr 1
        simp [Nat.shiftLeft_eq, Nat.pow_succ]
      have hcast : (j : Int) + 1 = ((j + 1 : Nat) : Int) := by push_cast; ring
      have htail : firstClearFrom v (j + 1) =
          (List.range' (j + 1) c).find? fun p => v &&& 2 ^ p = 0 := by
        rw [firstClearFrom, show 16 - (j + 1) = c from by omega]
      rw [hsh, hcast, ih (j + 1) (by omega), htail]

/-- C5.  Bitmask path of the allocator: when the first-free query answers
below `min` and `min < 16`, and the first cleared bit of the occupancy
bitmask at a position at least `min` is `k < 16`, the allocation returns a
handle numbered `k`; its full trace is the query, the state call, the device
open of `k`, the attribute fetch and the baseline commit — no probe opens
and no further first-free queries. -/
theorem c5_bitmask_path_returns_first_clear (o : Oracle) (fuel : Nat)
    (min n0 : Int) (vs : VtStat) (k : Nat) (t : Termios)
    (hmin0 : 0 ≤ min) (hmin16 : min < 16)
    (h1 : o.qry 0 = .ok n0) (h2 : n0 < min)
    (h3 : o.gstate 0 = .ok vs)
    (hk : firstClearFrom vs.v_state min.toNat = some k)
    (h4 : o.openTty 0 k = .ok ()) (h5 : o.tcget 0 = .ok t)
    (h6 : o.tcset 0 = .ok ()) :
    min ≤ (k : Int) ∧
    (new_vt_with_minimum_number o fuel min st0).1 =
      .ok ⟨(k : Int), 0, applyBaseline t⟩ ∧
    (new_vt_with_minimum_number o fuel min st0).2.trace =
      [Ev.qryCall, Ev.stateCall, Ev.openDev 0 (k : Int), Ev.tcgetCall k,
       Ev.tcsetCall k] := by
  lift min to ℕ using hmin0 with j hj
  have hj16 : j < 16 := by exact_mod_cast hmin16
  simp only [Int.toNat_natCast] at hk
  have hbounds := firstClearFrom_bounds vs.v_state j k hk
  have hkmin : (j : Int) ≤ (k : Int) := by exact_mod_cast hbounds.1
  have hscan : scanLoop vs.v_state (16 - j + 1) (j : Int)
      (shlRel16 j) = some (k : Int) := by
    have hshl : shlRel16 (j : Int) = 2 ^ j % 65536 := by
      rw [shlRel16,
        Int.emod_eq_of_lt (Int.natCast_nonneg j) (by exact_mod_cast hj16)]
      simp [Nat.shiftLeft_eq]
    rw [hshl,
      scanLoop_eq_firstClearFrom vs.v_state (16 - j) j (by omega), hk]
    rfl
  have hne : ¬ (j : Int) ≤ n0 := not_le.mpr h2
  have hknn : ¬ (k : Int) < 0 := by omega
  refine ⟨hkmin, ?_, ?_⟩ <;>
    simp [new_vt_with_minimum_number, vt_openqry, allocPhase, vt_getstate,
      with_number, openDevFile, with_number_and_file, tcgetattrM,
      finalizeBaseline, tcsetattrM, st0, St.emit, Except.mapError,
      h1, h3, h4, h5, h6, hne, hknn, hscan]

/-- A concrete oracle for the bitmask path: first free VT 2, occupancy
bitmask `126` = slots 1 to 6 in use, slot 7 free. -/
def oB : Oracle :=
  { oA with qry := fun _ => .ok 2, gstate := fun _ => .ok ⟨1, 0, 126⟩ }

theorem c5_bitmask_path_returns_first_clear_witness :
    (7 : Int) ≤ ((7 : Nat) : Int) ∧
    (new_vt_with_minimum_number oB 5 7 st0).1 =
      .ok ⟨((7 : Nat) : Int), 0, applyBaseline t0⟩ ∧
    (new_vt_with_minimum_number oB 5 7 st0).2.trace =
      [Ev.qryCall, Ev.stateCall, Ev.openDev 0 ((7 : Nat) : Int),
       Ev.tcgetCall ((7 : Nat) : Int), Ev.tcsetCall ((7 : Nat) : Int)] :=
  c5_bitmask_path_returns_first_clear oB 5 7 2 ⟨1, 0, 126⟩ 7 t0
    (by decide) (by decide) rfl (by decide) rfl (by decide) rfl rfl rfl

theorem with_number_and_file_ok (o : Oracle) (n : Int) (id : Nat) (st : St)
    (vt : Vt) (st' : St)
    (h : with_number_and_file o n id st = (.ok vt, st')) :
    vt.number = n ∧ vt.fileId = id ∧
    st'.trace = st.trace ++ [Ev.tcgetCall n] := by
  rw [with_number_and_file, tcgetattrM] at h
  cases hg : o.tcget st.tcgetK with
  | error e => rw [hg] at h; simp [Except.mapError] at h
  | ok t =>
    rw [hg] at h
    simp only [Except.mapError, Prod.mk.injEq, Except.ok.injEq] at h
    obtain ⟨hvt, hst⟩ := h
    subst hvt
    subst hst
    simp [St.emit]

theorem with_number_ok (o : Oracle) (n : Int) (st : St) (vt : Vt) (st' : St)
    (h : with_number o n st = (.ok vt, st')) :
    vt.number = n ∧ 0 ≤ n := by
  rw [with_number] at h
  split at h
  · simp at h
  · rename_i hn
    rw [openDevFile] at h
    cases ho : o.openTty st.openK n with
    | error e => rw [ho] at h; simp at h
    | ok u =>
      rw [ho] at h
      simp only at h
      exact ⟨(with_number_and_file_ok o n _ _ vt st' h).1, by omega⟩

theorem finalizeBaseline_ok (o : Oracle) (vt : Vt) (st : St) (vt' : Vt)
    (st' : St) (h : finalizeBaseline o vt st = (.ok vt', st')) :
    vt'.number = vt.number ∧ vt'.fileId = vt.fileId ∧
    st'.trace = st.trace ++ [Ev.tcsetCall vt.number] := by
  rw [finalizeBaseline, tcsetattrM] at h
  cases hg : o.tcset st.tcsetK with
  | error e => rw [hg] at h; simp [Except.mapError] at h
  | ok u =>
    rw [hg] at h
    simp only [Except.mapError, Prod.mk.injEq, Except.ok.injEq] at h
    obtain ⟨hvt, hst⟩ := h
    subst hst
    rw [← hvt]
    simp [St.emit]

theorem scanLoop_some_ge (v : Nat) :
    ∀ (f : Nat) (n : Int) (mask : Nat) (k : Int),
      scanLoop v f n mask = some k → n ≤ k ∧ k < 16 := by
  intro f
  induction f with
  | zero => intro n mask k h; simp [scanLoop] at h
  | succ f ih =>
    intro n mask k h
    rw [scanLoop] at h
    split at h
    · rename_i hn
      split at h
      · cases h
        exact ⟨le_refl _, hn⟩
      · have := ih (n + 1) ((mask <<< 1) % 65536) k h
        constructor
        · omega
        · exact this.2
    · cases h

theorem slowExit_ok_number (o : Oracle) (ff : Int) (files : List (Nat × Int))
    (st : St) (vt : Vt) (st' : St)
    (h : slowExit o ff files st = (.ok vt, st')) : vt.number = ff := by
  rw [slowExit] at h
  split at h
  · simp at h
  · split at h
    · simp at h
    · rename_i id m heq
      split at h
      · simp at h
      · rename_i vt1 st1 hwnf
        simp only [Prod.mk.injEq, Except.ok.injEq] at h
        obtain ⟨hvt, _⟩ := h
        subst hvt
        exact (with_number_and_file_ok o ff id st vt1 st1 hwnf).1

theorem slowLoop_ok_ge (o : Oracle) (thr : Int) :
    ∀ (fuel : Nat) (ff : Int) (files : List (Nat × Int)) (st : St)
      (vt : Vt) (st' : St),
      slowLoop o thr fuel ff files st = (.ok vt, st') → thr ≤ vt.number := by
  intro fuel
  induction fuel with
  | zero =>
    intro ff files st vt st' h
    rw [slowLoop] at h
    split at h
    · simp at h
    · rename_i hge
      rw [slowExit_ok_number o ff files st vt st' h] at *
      omega
  | succ f ih =>
    intro ff files st vt st' h
    rw [slowLoop] at h
    split at h
    · rename_i hlt
      rcases hq : vt_openqry o st with ⟨rq, st1⟩
      rw [hq] at h
      cases rq with
      | error e => simp at h
      | ok ffq =>
        simp only at h
        rcases hod : openDevFile o ffq st1 with ⟨rod, st2⟩
        rw [hod] at h
        cases rod with
        | error e => simp at h
        | ok id =>
          simp only at h
          exact ih ffq (files ++ [(id, ffq)]) st2 vt st' h
    · rename_i hge
      rw [slowExit_ok_number o ff files st vt st' h] at *
      omega

theorem allocPhase_ok_ge (o : Oracle) (fuel : Nat) (min n0 : Int) (st : St)
    (vt : Vt) (st' : St)
    (h : allocPhase o fuel min n0 st = (.ok vt, st')) : min ≤ vt.number := by
  rw [allocPhase] at h
  split at h
  · rename_i hfast
    have := with_number_ok o n0 st vt st' h
    omega
  · rename_i hslow
    rcases hg : vt_getstate o st with ⟨rg, st2⟩
    rw [hg] at h
    cases rg with
    | error e => simp at h
    | ok vs =>
      simp only at h
      split at h
      · rename_i k hscan
        have hk := scanLoop_some_ge vs.v_state _ min (shlRel16 min) k hscan
        have := with_number_ok o k st2 vt st' h
        omega
      · have := slowLoop_ok_ge o (max min 16) fuel 0 [] st2 vt st' h
        have hmax : min ≤ max min 16 := le_max_left min 16
        omega

/-- C1.  Whenever `new_vt_with_minimum_number` returns successfully for a
minimum at least 0, the number of the returned handle is at least the
minimum, whichever of the three paths (fast, bitmask scan, slow probing)
produced it. -/
theorem c1_allocation_respects_minimum (o : Oracle) (fuel : Nat) (min : Int)
    (st : St) (vt : Vt) (hmin : 0 ≤ min)
    (h : (new_vt_with_minimum_number o fuel min st).1 = .ok vt) :
    min ≤ vt.number := by
  rw [new_vt_with_minimum_number] at h
  rcases hq : vt_openqry o st with ⟨rq, st1⟩
  rw [hq] at h
  cases rq with
  | error e => simp at h
  | ok n0 =>
    simp only at h
    rcases hp : allocPhase o fuel min n0 st1 with ⟨rp, st3⟩
    rw [hp] at h
    cases rp with
    | error e => simp at h
    | ok vt1 =>
      simp only at h
      rcases hf : finalizeBaseline o vt1 st3 with ⟨rf, st4⟩
      rw [hf] at h
      cases rf with
      | error e => simp at h
      | ok vt2 =>
        simp only at h
        cases h
        have h1 := allocPhase_ok_ge o fuel min n0 st1 vt1 st3 hp
        have h2 := (finalizeBaseline_ok o vt1 st3 vt st4 hf).1
        omega

theorem c1_allocation_respects_minimum_witness :
    (0 : Int) ≤ Vt.number ⟨3, 0, applyBaseline t0⟩ :=
  c1_allocation_respects_minimum oA 5 0 st0 ⟨3, 0, applyBaseline t0⟩
    (by decide) rfl

theorem closeAll_trace (fs : List (Nat × Int)) :
    ∀ st : St, (closeAll fs st).trace =
      st.trace ++ fs.map (fun p => Ev.closeDev p.1 p.2) := by
  induction fs with
  | nil => intro st; simp [closeAll]
  | cons a l ih =>
    intro st
    show (closeAll l (st.emit (Ev.closeDev a.1 a.2))).trace = _
    rw [ih]
    simp [St.emit]

theorem opensOf_closeEvs (fs : List (Nat × Int)) :
    opensOf (fs.map fun p => Ev.closeDev p.1 p.2) = [] := by
  induction fs with
  | nil => simp [opensOf]
  | cons a l ih => simpa [opensOf, List.filterMap_cons] using ih

theorem closesOf_closeEvs (fs : List (Nat × Int)) :
    closesOf (fs.map fun p => Ev.closeDev p.1 p.2) = fs := by
  induction fs with
  | nil => simp [closesOf]
  | cons a l ih => simpa [closesOf, List.filterMap_cons] using ih

theorem eq_dropLast_concat_of_getLast? (l : List (Nat × Int)) (q : Nat × Int)
    (h : l.getLast? = some q) : l = l.dropLast ++ [q] := by
  rcases l.eq_nil_or_concat with rfl | ⟨l', a, rfl⟩
  · simp at h
  · rw [List.concat_eq_append] at *
    rw [List.getLast?_concat] at h
    cases h
    simp

theorem mem_dropLast_or_getLast? (l : List (Nat × Int)) (p : Nat × Int)
    (h : p ∈ l) : p ∈ l.dropLast ∨ l.getLast? = some p := by
  rcases l.eq_nil_or_concat with rfl | ⟨l', a, rfl⟩
  · simp at h
  · rw [List.concat_eq_append] at *
    rw [List.mem_append] at h
    rcases h with h | h
    · left; simpa using h
    · right
      simp only [List.mem_singleton] at h
      subst h
      exact List.getLast?_concat _

theorem with_number_and_file_err (o : Oracle) (n : Int) (id : Nat) (st : St)
    (e : Err) (st' : St)
    (h : with_number_and_file o n id st = (.error e, st')) :
    st'.trace = st.trace ++ [Ev.tcgetCall n, Ev.closeDev id n] := by
  rw [with_number_and_file, tcgetattrM] at h
  cases hg : o.tcget st.tcgetK with
  | error e2 =>
    rw [hg] at h
    simp only [Except.mapError, Prod.mk.injEq, Except.error.injEq] at h
    obtain ⟨_, hst⟩ := h
    subst hst
    simp [closeFile, St.emit]
  | ok t => rw [hg] at h; simp [Except.mapError] at h

theorem finalizeBaseline_err (o : Oracle) (vt : Vt) (st : St) (e : Err)
    (st' : St) (h : finalizeBaseline o vt st = (.error e, st')) :
    st'.trace = st.trace ++ [Ev.tcsetCall vt.number, Ev.disallocCall vt.number,
      Ev.closeDev vt.fileId vt.number] := by
  rw [finalizeBaseline, tcsetattrM] at h
  cases hg : o.tcset st.tcsetK with
  | error e2 =>
    rw [hg] at h
    simp only [Except.mapError, Prod.mk.injEq, Except.error.injEq] at h
    obtain ⟨_, hst⟩ := h
    subst hst
    simp [dropVt, closeFile, St.emit]
  | ok u => rw [hg] at h; simp [Except.mapError] at h

theorem slowExit_ok_spec (o : Oracle) (ff : Int) (files : List (Nat × Int))
    (st : St) (vt : Vt) (st' : St)
    (h : slowExit o ff files st = (.ok vt, st'))
    (hlast : ∀ q, files.getLast? = some q → q.2 = ff) :
    vt.number = ff ∧
    st'.trace = st.trace ++ [Ev.tcgetCall ff] ++
      (files.dropLast.map fun p => Ev.closeDev p.1 p.2) ∧
    files.getLast? = some (vt.fileId, vt.number) := by
  rw [slowExit] at h
  split at h
  · simp at h
  · split at h
    · simp at h
    · rename_i id m heq
      split at h
      · simp at h
      · rename_i vt1 st1 hwnf
        simp only [Prod.mk.injEq, Except.ok.injEq] at h
        obtain ⟨hvt, hst⟩ := h
        subst hvt
        subst hst
        obtain ⟨hnum, hfid, htr⟩ :=
          with_number_and_file_ok o ff id st vt1 st1 hwnf
        have hm : m = ff := hlast (id, m) heq
        refine ⟨hnum, ?_, ?_⟩
        · rw [closeAll_trace, htr]
        · rw [heq, hnum, hfid, hm]

theorem slowExit_err_spec (o : Oracle) (ff : Int) (files : List (Nat × Int))
    (st : St) (e : Err) (st' : St)
    (h : slowExit o ff files st = (.error e, st'))
    (hlast : ∀ q, files.getLast? = some q → q.2 = ff) :
    opensOf st'.trace = opensOf st.trace ∧
    ∀ p, (closesOf st'.trace).count p =
      (closesOf st.trace).count p + files.count p := by
  rw [slowExit] at h
  split at h
  · simp only [Prod.mk.injEq, Except.error.injEq] at h
    obtain ⟨_, hst⟩ := h
    subst hst
    rw [closeAll_trace]
    constructor
    · rw [opensOf_append, opensOf_closeEvs, List.append_nil]
    · intro p
      rw [closesOf_append, closesOf_closeEvs, List.count_append]
  · split at h
    · rename_i hnone
      have hnil : files = [] := by
        rcases files.eq_nil_or_concat with rfl | ⟨l', a, rfl⟩
        · rfl
        · rw [List.concat_eq_append, List.getLast?_concat] at hnone
          simp at hnone
      subst hnil
      simp only [Prod.mk.injEq, Except.error.injEq] at h
      obtain ⟨_, hst⟩ := h
      subst hst
      rw [closeAll_trace]
      constructor
      · simp
      · intro p; simp
    · rename_i id m heq
      split at h
      · rename_i e1 st1 hwnf
        simp only [Prod.mk.injEq, Except.error.injEq] at h
        obtain ⟨_, hst⟩ := h
        subst hst
        have hw := with_number_and_file_err o ff id st e1 st1 hwnf
        have hm : m = ff := hlast (id, m) heq
        have hfiles : files = files.dropLast ++ [(id, m)] :=
          eq_dropLast_concat_of_getLast? files (id, m) heq
        constructor
        · rw [closeAll_trace, hw]
          rw [show st.trace ++ [Ev.tcgetCall ff, Ev.closeDev id ff] ++
              (files.dropLast.map fun p => Ev.closeDev p.1 p.2) =
              st.trace ++ ([Ev.tcgetCall ff, Ev.closeDev id ff] ++
                (files.dropLast.map fun p => Ev.closeDev p.1 p.2)) from by simp]
          rw [opensOf_append]
          have : opensOf ([Ev.tcgetCall ff, Ev.closeDev id ff] ++
              (files.dropLast.map fun p => Ev.closeDev p.1 p.2)) = [] := by
            rw [opensOf_append, opensOf_closeEvs]
            simp [opensOf, List.filterMap_cons]
          rw [this, List.append_nil]
        · intro p
          rw [closeAll_trace, hw]
          rw [show st.trace ++ [Ev.tcgetCall ff, Ev.closeDev id ff] ++
              (files.dropLast.map fun p => Ev.closeDev p.1 p.2) =
              st.trace ++ ([Ev.tcgetCall ff, Ev.closeDev id ff] ++
                (files.dropLast.map fun p => Ev.closeDev p.1 p.2)) from by simp]
          rw [closesOf_append]
          have hcl : closesOf ([Ev.tcgetCall ff, Ev.closeDev id ff] ++
              (files.dropLast.map fun p => Ev.closeDev p.1 p.2)) =
              (id, ff) :: files.dropLast := by
            rw [closesOf_append, closesOf_closeEvs]
            simp [closesOf, List.filterMap_cons]
          rw [hcl, List.count_append]
          conv_rhs => rw [hfiles]
          rw [List.count_append, hm]
          simp [List.count_cons, List.count_singleton]
      · simp at h

theorem slowLoop_ok_spec (o : Oracle) (thr : Int) :
    ∀ (fuel : Nat) (ff : Int) (files : List (Nat × Int)) (st : St)
      (vt : Vt) (st' : St),
      slowLoop o thr fuel ff files st = (.ok vt, st') →
      (∀ q, files.getLast? = some q → q.2 = ff) →
      (∀ p ∈ files.dropLast, p.2 < thr) →
      ∃ probes : List (Nat × Int),
        opensOf st'.trace = opensOf st.trace ++ probes ∧
        closesOf st'.trace = closesOf st.trace ++ (files ++ probes).dropLast ∧
        (files ++ probes).getLast? = some (vt.fileId, vt.number) ∧
        thr ≤ vt.number ∧
        ∀ p ∈ (files ++ probes).dropLast, p.2 < thr := by
  intro fuel
  induction fuel with
  | zero =>
    intro ff files st vt st' h hlast hdrop
    rw [slowLoop] at h
    split at h
    · simp at h
    · rename_i hge
      obtain ⟨hnum, htr, hlastq⟩ := slowExit_ok_spec o ff files st vt st' h hlast
      refine ⟨[], ?_, ?_, ?_, ?_, ?_⟩
      · rw [htr, List.append_assoc, opensOf_append, opensOf_append,
          opensOf_closeEvs]
        simp [opensOf, List.filterMap_cons]
      · rw [htr, List.append_assoc, closesOf_append, closesOf_append,
          closesOf_closeEvs]
        simp [closesOf, List.filterMap_cons]
      · simpa using hlastq
      · rw [hnum]; omega
      · simpa using hdrop
  | succ f ih =>
    intro ff files st vt st' h hlast hdrop
    rw [slowLoop] at h
    split at h
    · rename_i hlt
      rw [vt_openqry] at h
      cases hq : o.qry st.qryK with
      | error e => rw [hq] at h; simp [Except.mapError] at h
      | ok ffq =>
        rw [hq] at h
        simp only [Except.mapError, St.emit] at h
        rw [openDevFile] at h
        simp only at h
        cases ho : o.openTty st.openK ffq with
        | error e => rw [ho] at h; simp at h
        | ok u =>
          rw [ho] at h
          simp only [St.emit] at h
          obtain ⟨probes1, hop, hcl, hlast1, hthr, hmem⟩ :=
            ih ffq (files ++ [(st.openK, ffq)]) _ vt st' h
              (by
                intro q hq1
                rw [List.getLast?_concat] at hq1
                cases hq1
                rfl)
              (by
                intro p hp
                rw [List.dropLast_concat] at hp
                rcases mem_dropLast_or_getLast? files p hp with hp1 | hp1
                · exact hdrop p hp1
                · have := hlast p hp1
                  omega)
          have hassoc :
              (files ++ [(st.openK, ffq)]) ++ probes1 =
                files ++ (st.openK, ffq) :: probes1 := by
            simp
          refine ⟨(st.openK, ffq) :: probes1, ?_, ?_, ?_, hthr, ?_⟩
          · rw [hop]
            simp only [St.emit]
            rw [List.append_assoc, opensOf_append]
            simp [opensOf, List.filterMap_cons, List.filterMap_append]
          · rw [hcl, hassoc]
            simp only [St.emit]
            rw [List.append_assoc, closesOf_append]
            simp [closesOf, List.filterMap_cons, List.filterMap_append]
          · rw [← hassoc]; exact hlast1
          · rw [← hassoc]; exact hmem
    · rename_i hge
      obtain ⟨hnum, htr, hlastq⟩ := slowExit_ok_spec o ff files st vt st' h hlast
      refine ⟨[], ?_, ?_, ?_, ?_, ?_⟩
      · rw [htr, List.append_assoc, opensOf_append, opensOf_append,
          opensOf_closeEvs]
        simp [opensOf, List.filterMap_cons]
      · rw [htr, List.append_assoc, closesOf_append, closesOf_append,
          closesOf_closeEvs]
        simp [closesOf, List.filterMap_cons]
      · simpa using hlastq
      · rw [hnum]; omega
      · simpa using hdrop

theorem slowLoop_err_spec (o : Oracle) (thr : Int) :
    ∀ (fuel : Nat) (ff : Int) (files : List (Nat × Int)) (st : St)
      (e : Err) (st' : St),
      slowLoop o thr fuel ff files st = (.error e, st') →
      (∀ q, files.getLast? = some q → q.2 = ff) →
      ∃ probes : List (Nat × Int),
        opensOf st'.trace = opensOf st.trace ++ probes ∧
        ∀ p, (closesOf st'.trace).count p =
          (closesOf st.trace).count p + (files ++ probes).count p := by
  intro fuel
  induction fuel with
  | zero =>
    intro ff files st e st' h hlast
    rw [slowLoop] at h
    split at h
    · simp only [Prod.mk.injEq, Except.error.injEq] at h
      obtain ⟨_, hst⟩ := h
      subst hst
      refine ⟨[], ?_, ?_⟩
      · rw [closeAll_trace, opensOf_append, opensOf_closeEvs, List.append_nil]
      · intro p
        rw [closeAll_trace, closesOf_append, closesOf_closeEvs,
          List.count_append]
        simp
    · obtain ⟨hop, hcnt⟩ := slowExit_err_spec o ff files st e st' h hlast
      exact ⟨[], by simpa using hop, by simpa using hcnt⟩
  | succ f ih =>
    intro ff files st e st' h hlast
    rw [slowLoop] at h
    split at h
    · rename_i hlt
      rw [vt_openqry] at h
      cases hq : o.qry st.qryK with
      | error e1 =>
        rw [hq] at h
        simp only [Except.mapError, St.emit, Prod.mk.injEq,
          Except.error.injEq] at h
        obtain ⟨_, hst⟩ := h
        subst hst
        refine ⟨[], ?_, ?_⟩
        · rw [closeAll_trace, List.append_assoc, opensOf_append,
            opensOf_append, opensOf_closeEvs]
          simp [opensOf, List.filterMap_cons]
        · intro p
          rw [closeAll_trace, List.append_assoc, closesOf_append,
            closesOf_append, closesOf_closeEvs, List.count_append]
          simp [closesOf, List.filterMap_cons]
      | ok ffq =>
        rw [hq] at h
        simp only [Except.mapError, St.emit] at h
        rw [openDevFile] at h
        simp only at h
        cases ho : o.openTty st.openK ffq with
        | error e1 =>
          rw [ho] at h
          simp only [Prod.mk.injEq, Except.error.injEq] at h
          obtain ⟨_, hst⟩ := h
          subst hst
          refine ⟨[], ?_, ?_⟩
          · rw [closeAll_trace, List.append_assoc, opensOf_append,
              opensOf_append, opensOf_closeEvs]
            simp [opensOf, List.filterMap_cons]
          · intro p
            rw [closeAll_trace, List.append_assoc, closesOf_append,
              closesOf_append, closesOf_closeEvs, List.count_append]
            simp [closesOf, List.filterMap_cons]
        | ok u =>
          rw [ho] at h
          simp only [St.emit] at h
          obtain ⟨probes1, hop, hcnt⟩ :=
            ih ffq (files ++ [(st.openK, ffq)]) _ e st' h
              (by
                intro q hq1
                rw [List.getLast?_concat] at hq1
                cases hq1
                rfl)
          have hassoc :
              (files ++ [(st.openK, ffq)]) ++ probes1 =
                files ++ (st.openK, ffq) :: probes1 := by
            simp
          refine ⟨(st.openK, ffq) :: probes1, ?_, ?_⟩
          · rw [hop]
            simp only [St.emit]
            rw [List.append_assoc, opensOf_append]
            simp [opensOf, List.filterMap_cons, List.filterMap_append]
          · intro p
            have := hcnt p
            rw [hassoc] at this
            simpa [opensOf, closesOf, List.filterMap_cons,
              List.filterMap_append, closesOf_append] using this
    · obtain ⟨hop, hcnt⟩ := slowExit_err_spec o ff files st e st' h hlast
      exact ⟨[], by simpa using hop, by simpa using hcnt⟩

/-- C6.  Slow (probing) path of the allocator.  When the first-free query
answers below `min` and the 16-slot occupancy window has no cleared bit at or
above `min` (`firstClearFrom … = none`), the allocator probes.  On success the
returned handle's number is at least `min` (and at least the internal
threshold `max min 16`); every probe-opened file except the last is closed;
the last probe-opened file is exactly the handle's backing descriptor (same
file identifier, same number — never re-opened, it appears exactly once among
the opens); and every closed probe file's number is below the threshold.  On
any failure, the closed files match the opened files exactly (no probe file
is leaked). -/
theorem c6_slow_path_probe_file_discipline (o : Oracle) (fuel : Nat)
    (min n0 : Int) (vs : VtStat)
    (hmin : 0 ≤ min)
    (h1 : o.qry 0 = .ok n0) (h2 : n0 < min) (h3 : o.gstate 0 = .ok vs)
    (hfc : firstClearFrom vs.v_state min.toNat = none) :
    (∀ vt, (new_vt_with_minimum_number o fuel min st0).1 = .ok vt →
      min ≤ vt.number ∧ max min 16 ≤ vt.number ∧
      closesOf (new_vt_with_minimum_number o fuel min st0).2.trace =
        (opensOf (new_vt_with_minimum_number o fuel min st0).2.trace).dropLast ∧
      (opensOf (new_vt_with_minimum_number o fuel min st0).2.trace).getLast? =
        some (vt.fileId, vt.number) ∧
      (∀ p ∈ (opensOf
          (new_vt_with_minimum_number o fuel min st0).2.trace).dropLast,
        p.2 < max min 16) ∧
      (opensOf (new_vt_with_minimum_number o fuel min st0).2.trace).count
        (vt.fileId, vt.number) = 1) ∧
    (∀ e, (new_vt_with_minimum_number o fuel min st0).1 = .error e →
      ∀ p, (closesOf
          (new_vt_with_minimum_number o fuel min st0).2.trace).count p =
        (opensOf (new_vt_with_minimum_number o fuel min st0).2.trace).count
          p) := by
  have hscanNone : scanLoop vs.v_state ((16 - min).toNat + 1) min
      (shlRel16 min) = none := by
    by_cases h16 : min < 16
    · lift min to ℕ using hmin with j hj
      simp only [Int.toNat_natCast] at hfc
      have hj16 : j < 16 := by exact_mod_cast h16
      have hshl : shlRel16 (j : Int) = 2 ^ j % 65536 := by
        rw [shlRel16,
          Int.emod_eq_of_lt (Int.natCast_nonneg j) (by exact_mod_cast hj16)]
        simp [Nat.shiftLeft_eq]
      rw [show ((16 : Int) - (j : Int)).toNat = 16 - j from by omega, hshl,
        scanLoop_eq_firstClearFrom vs.v_state (16 - j) j (by omega), hfc]
      rfl
    · rw [show ((16 : Int) - min).toNat = 0 from by omega]
      rw [scanLoop]
      rw [if_neg h16]
  have hq : vt_openqry o st0 =
      (.ok n0, ⟨1, 0, 0, 0, 0, 0, 0, 0, [Ev.qryCall]⟩) := by
    simp [vt_openqry, st0, St.emit, h1, Except.mapError]
  have hgs : vt_getstate o ⟨1, 0, 0, 0, 0, 0, 0, 0, [Ev.qryCall]⟩ =
      (.ok vs, ⟨1, 1, 0, 0, 0, 0, 0, 0, [Ev.qryCall, Ev.stateCall]⟩) := by
    simp [vt_getstate, St.emit, h3, Except.mapError]
  have hphase : allocPhase o fuel min n0 ⟨1, 0, 0, 0, 0, 0, 0, 0,
      [Ev.qryCall]⟩ = slowLoop o (max min 16) fuel 0 []
      ⟨1, 1, 0, 0, 0, 0, 0, 0, [Ev.qryCall, Ev.stateCall]⟩ := by
    rw [allocPhase, if_neg (not_le.mpr h2), hgs]
    show (match scanLoop vs.v_state ((16 - min).toNat + 1) min
        (shlRel16 min) with
      | some k => with_number o k ⟨1, 1, 0, 0, 0, 0, 0, 0,
          [Ev.qryCall, Ev.stateCall]⟩
      | none => slowLoop o (max min 16) fuel 0 []
          ⟨1, 1, 0, 0, 0, 0, 0, 0, [Ev.qryCall, Ev.stateCall]⟩) = _
    rw [hscanNone]
  have hrun : new_vt_with_minimum_number o fuel min st0 =
      (match slowLoop o (max min 16) fuel 0 []
          ⟨1, 1, 0, 0, 0, 0, 0, 0, [Ev.qryCall, Ev.stateCall]⟩ with
        | (.error e, s) => (.error e, s)
        | (.ok vt1, s) => finalizeBaseline o vt1 s) := by
    rw [new_vt_with_minimum_number, hq]
    show (match allocPhase o fuel min n0 ⟨1, 0, 0, 0, 0, 0, 0, 0,
        [Ev.qryCall]⟩ with
      | (.error e, st3) => ((.error e, st3) : Except Err Vt × St)
      | (.ok vt, st3) => finalizeBaseline o vt st3) = _
    rw [hphase]
  rcases hs : slowLoop o (max min 16) fuel 0 []
      ⟨1, 1, 0, 0, 0, 0, 0, 0, [Ev.qryCall, Ev.stateCall]⟩ with ⟨rs, st3⟩
  rw [hs] at hrun
  cases rs with
  | error e =>
    have hrun2 : new_vt_with_minimum_number o fuel min st0 =
        (.error e, st3) := by rw [hrun]
    obtain ⟨probes, hop, hcnt⟩ := slowLoop_err_spec o (max min 16) fuel 0 []
      _ e st3 hs (by intro q hq1; cases hq1)
    have hop3 : opensOf st3.trace = probes := by
      rw [hop]; rfl
    have hcl3 : ∀ p : Nat × Int,
        (closesOf st3.trace).count p = probes.count p := by
      intro p
      have hc := hcnt p
      have hlit : closesOf (⟨1, 1, 0, 0, 0, 0, 0, 0,
          [Ev.qryCall, Ev.stateCall]⟩ : St).trace = [] := rfl
      rw [hlit] at hc
      simpa using hc
    constructor
    · intro vt hvt
      rw [hrun2] at hvt
      simp at hvt
    · intro e1 _ p
      rw [hrun2]
      show (closesOf st3.trace).count p = (opensOf st3.trace).count p
      rw [hop3, hcl3]
  | ok vt1 =>
    have hrun2 : new_vt_with_minimum_number o fuel min st0 =
        finalizeBaseline o vt1 st3 := by rw [hrun]
    obtain ⟨probes, hop, hcl, hlastp, hthr, hmem⟩ :=
      slowLoop_ok_spec o (max min 16) fuel 0 [] _ vt1 st3 hs
        (by intro q hq1; cases hq1) (by intro p hp; cases hp)
    have hopens3 : opensOf st3.trace = probes := by
      rw [hop]; rfl
    have hcloses3 : closesOf st3.trace = probes.dropLast := by
      rw [hcl]; rfl
    have hlastp2 : probes.getLast? = some (vt1.fileId, vt1.number) := by
      simpa using hlastp
    have hmem2 : ∀ p ∈ probes.dropLast, p.2 < max min 16 := by
      simpa using hmem
    have hprobes : probes = probes.dropLast ++ [(vt1.fileId, vt1.number)] :=
      eq_dropLast_concat_of_getLast? probes _ hlastp2
    have hnotmem : (vt1.fileId, vt1.number) ∉ probes.dropLast := by
      intro hmem3
      have := hmem2 _ hmem3
      omega
    rcases hf : finalizeBaseline o vt1 st3 with ⟨rf, st4⟩
    rw [hf] at hrun2
    cases rf with
    | error e2 =>
      have htr4 := finalizeBaseline_err o vt1 st3 e2 st4 hf
      have hopens4 : opensOf st4.trace = probes := by
        rw [htr4, show st3.trace ++ [Ev.tcsetCall vt1.number,
            Ev.disallocCall vt1.number,
            Ev.closeDev vt1.fileId vt1.number] =
            st3.trace ++ ([Ev.tcsetCall vt1.number,
              Ev.disallocCall vt1.number,
              Ev.closeDev vt1.fileId vt1.number]) from by simp,
          opensOf_append, hopens3]
        simp [opensOf, List.filterMap_cons]
      have hcloses4 : closesOf st4.trace =
          probes.dropLast ++ [(vt1.fileId, vt1.number)] := by
        rw [htr4, show st3.trace ++ [Ev.tcsetCall vt1.number,
            Ev.disallocCall vt1.number,
            Ev.closeDev vt1.fileId vt1.number] =
            st3.trace ++ ([Ev.tcsetCall vt1.number,
              Ev.disallocCall vt1.number,
              Ev.closeDev vt1.fileId vt1.number]) from by simp,
          closesOf_append, hcloses3]
        simp [closesOf, List.filterMap_cons]
      constructor
      · intro vt hvt
        rw [hrun2] at hvt
        simp at hvt
      · intro e1 _ p
        rw [hrun2]
        show (closesOf st4.trace).count p = (opensOf st4.trace).count p
        rw [hopens4, hcloses4]
        conv_rhs => rw [hprobes]
    | ok vt2 =>
      obtain ⟨hnum2, hfid2, htr4⟩ := finalizeBaseline_ok o vt1 st3 vt2 st4 hf
      have hopens4 : opensOf st4.trace = probes := by
        rw [htr4, opensOf_append, hopens3]
        simp [opensOf, List.filterMap_cons]
      have hcloses4 : closesOf st4.trace = probes.dropLast := by
        rw [htr4, closesOf_append, hcloses3]
        simp [closesOf, List.filterMap_cons]
      constructor
      · intro vt hvt
        rw [hrun2] at hvt
        simp only [Except.ok.injEq] at hvt
        subst hvt
        have hmax1 : min ≤ max min 16 := le_max_left min 16
        have hmax2 : (16 : Int) ≤ max min 16 := le_max_right min 16
        refine ⟨by omega, by omega, ?_, ?_, ?_, ?_⟩
        · rw [hrun2]
          show closesOf st4.trace = (opensOf st4.trace).dropLast
          rw [hopens4, hcloses4]
        · rw [hrun2]
          show (opensOf st4.trace).getLast? = some (vt2.fileId, vt2.number)
          rw [hopens4, hlastp2, hnum2, hfid2]
        · intro p hp
          rw [hrun2] at hp
          have hp2 : p ∈ (opensOf st4.trace).dropLast := hp
          rw [hopens4] at hp2
          exact hmem2 p hp2
        · rw [hrun2]
          show (opensOf st4.trace).count (vt2.fileId, vt2.number) = 1
          rw [hopens4, hnum2, hfid2]
          conv_lhs => rw [hprobes]
          rw [List.count_append]
          rw [List.count_eq_zero.mpr hnotmem]
          simp
      · intro e1 he1
        rw [hrun2] at he1
        simp at he1

/-- A concrete oracle exercising the slow path: first-free query answers 0
then 16, the occupancy bitmask has slots 1 to 15 all in use. -/
def oC : Oracle :=
  { oA with
    qry := fun k => if k = 0 then .ok 0 else .ok (15 + (k : Int))
    gstate := fun _ => .ok ⟨1, 0, 65534⟩ }

theorem c6_slow_path_probe_file_discipline_witness :
    (1 : Int) ≤ Vt.number ⟨16, 0, applyBaseline t0⟩ ∧
    closesOf (new_vt_with_minimum_number oC 2 1 st0).2.trace =
      (opensOf (new_vt_with_minimum_number oC 2 1 st0).2.trace).dropLast ∧
    (opensOf (new_vt_with_minimum_number oC 2 1 st0).2.trace).getLast? =
      some ((⟨16, 0, applyBaseline t0⟩ : Vt).fileId,
        (⟨16, 0, applyBaseline t0⟩ : Vt).number) ∧
    (opensOf (new_vt_with_minimum_number oC 2 1 st0).2.trace).count
      ((⟨16, 0, applyBaseline t0⟩ : Vt).fileId,
        (⟨16, 0, applyBaseline t0⟩ : Vt).number) = 1 := by
  have h := (c6_slow_path_probe_file_discipline oC 2 1 0 ⟨1, 0, 65534⟩
    (by decide) rfl (by decide) rfl (by decide)).1
    ⟨16, 0, applyBaseline t0⟩ rfl
  exact ⟨h.1, h.2.2.1, h.2.2.2.1, h.2.2.2.2.2⟩

end VtRs
